import Mathlib

/-!
Shallow embedding of the sneslib memory subsystem (src/memory/mod.rs,
src/address/mod.rs, src/cartridge/mod.rs) in Lean 4.

Modelling conventions:
* Machine integers are `Nat`; `u8` truncation is `% 256`, `u16` is `% 0x10000`,
  `u32`-to-`u24` masking is `&&& 0xFFFFFF`, exactly where the source casts or masks.
* Rust slices `Box of AtomicU8` are modelled as a content function `Nat → Nat`
  together with an explicit length field (the source only ever reads a slice at an
  index and asks for its `len()`).
* Fallible execution (a Rust panic: a failed `assert`, an out-of-bounds slice
  index, an `Option.unwrap` of `None`, or `todo`) is modelled as `Option`:
  a panic is `none`.
* The decode tables (length `MAP_SIZE` arrays of optional byte-cell pointers) are
  modelled as functions `Nat → Option Cell`; a `Cell` is the region-tagged index
  of the byte the table slot aliases.  The `get_unchecked` table lookup of
  `read`/`write` keeps its bound explicit: an index `≥ MAP_SIZE` would be
  undefined behaviour and is modelled as `none`.
-/

/-- Address16 models the Rust `Address16(u16)` newtype.  Every public
constructor of the Rust type produces a value below `2 ^ 16`, so the model
carries that invariant. -/
structure Address16 where
  val : Nat
  isLt : val < 0x10000
deriving DecidableEq

/-- Address24 models the Rust `Address24(u32)` newtype.  Every public
constructor of the Rust type (`new` masks with `0xFFFFFF`, `try_from` range
checks, `From` of `u8`/`u16`/`Address16` widens) produces a value below
`2 ^ 24`, so the model carries that invariant. -/
structure Address24 where
  val : Nat
  isLt : val < 0x1000000
deriving DecidableEq

/-- Address16::new. -/
def Address16.new (address : Nat) : Address16 :=
  ⟨address % 0x10000, Nat.mod_lt _ (by omega)⟩

/-- Address16::low: `(self.0 & 0xFF) as u8`. -/
def Address16.low (a : Address16) : Nat := a.val &&& 0xFF

/-- Address16::high: `(self.0 >> 8) as u8`. -/
def Address16.high (a : Address16) : Nat := (a.val >>> 8) % 0x100

/-- impl Add for Address16: `wrapping_add` on the `u16` payload. -/
def Address16.add (a b : Address16) : Address16 :=
  ⟨(a.val + b.val) % 0x10000, Nat.mod_lt _ (by omega)⟩

/-- Address24::new: `Address24(address & 0xFFFFFF)`. -/
def Address24.new (address : Nat) : Address24 :=
  ⟨address &&& 0xFFFFFF, Nat.lt_of_le_of_lt Nat.and_le_right (by omega)⟩

/-- Address24::low: `(self.0 & 0xFF) as u8`. -/
def Address24.low (a : Address24) : Nat := a.val &&& 0xFF

/-- Address24::middle: `(self.0 >> 8) as u8`. -/
def Address24.middle (a : Address24) : Nat := (a.val >>> 8) % 0x100

/-- Address24::high: `(self.0 >> 16) as u8`. -/
def Address24.high (a : Address24) : Nat := (a.val >>> 16) % 0x100

/-- Address24::get_lower_address16: `Address16(self.0 as u16)`. -/
def Address24.get_lower_address16 (a : Address24) : Address16 :=
  ⟨a.val % 0x10000, Nat.mod_lt _ (by omega)⟩

/-- impl Add for Address24: `wrapping_add` then mask `0xFFFFFF`. -/
def Address24.add (a b : Address24) : Address24 :=
  ⟨(a.val + b.val) &&& 0xFFFFFF, Nat.lt_of_le_of_lt Nat.and_le_right (by omega)⟩

/-- impl Add of Address16 for Address24:
`Self(self.0 & 0xFF0000 | (self.get_lower_address16() + rhs).0 as u32)`. -/
def Address24.add16 (a : Address24) (b : Address16) : Address24 :=
  ⟨(a.val &&& 0xFF0000) ||| (a.get_lower_address16.add b).val,
   Nat.or_lt_two_pow (n := 24)
     (Nat.lt_of_le_of_lt Nat.and_le_right (by omega))
     (Nat.lt_of_lt_of_le (a.get_lower_address16.add b).isLt (by omega))⟩

/-- Into usize for Address24: `self.0 as usize`, the flat table index. -/
def Address24.toIndex (a : Address24) : Nat := a.val

/-- Cartridge (src/cartridge/mod.rs): the engine only consumes its raw ROM
image, a `Vec of u8`, modelled as a length plus a byte function. -/
structure Cartridge where
  rom : Nat → Nat
  romLen : Nat

/-- ROMType: the mapping-mode hint consumed by `MemoryMap::from_cartridge`.
It is referenced as `crate::cartridge::ROMType` with variants `LoROM` and
`HiROM` at the use sites in src/memory/mod.rs. -/
inductive ROMType where
  | LoROM
  | HiROM
deriving DecidableEq

/-- PAGE_SIZE from src/memory/mod.rs. -/
def PAGE_SIZE : Nat := 64 * 1024

/-- MAP_SIZE from src/memory/mod.rs: length of both decode tables. -/
def MAP_SIZE : Nat := 256 * PAGE_SIZE

/-- Cell is the target of one decode-table slot: the index of one byte inside
one of the three regions (the Rust code stores a raw `*const AtomicU8` into
the region's box; the model stores the region tag and offset instead). -/
inductive Cell where
  | rom (i : Nat)
  | wram (i : Nat)
  | sram (i : Nat)
deriving DecidableEq

/-- MapInfo mirrors the `MapInfo` enum of src/memory/mod.rs. -/
inductive MapInfo where
  | ROM (src dst len : Nat)
  | WRAM (src dst len : Nat)
  | SRAM (src dst len : Nat)
deriving DecidableEq

/-- Source offset of a directive. -/
def MapInfo.src : MapInfo → Nat
  | .ROM s _ _ => s
  | .WRAM s _ _ => s
  | .SRAM s _ _ => s

/-- Flat destination offset of a directive. -/
def MapInfo.dst : MapInfo → Nat
  | .ROM _ d _ => d
  | .WRAM _ d _ => d
  | .SRAM _ d _ => d

/-- Length of a directive. -/
def MapInfo.len : MapInfo → Nat
  | .ROM _ _ n => n
  | .WRAM _ _ n => n
  | .SRAM _ _ n => n

/-- A directive is read-write when it is installed into the write table as
well as the read table (the `WRAM` and `SRAM` arms of `MemoryMap::map`);
`ROM` directives touch only the read table. -/
def MapInfo.isRW : MapInfo → Bool
  | .ROM _ _ _ => false
  | .WRAM _ _ _ => true
  | .SRAM _ _ _ => true

/-- A directive covers flat address `a` when `a` lies in its destination
range `dst .. dst + len`. -/
def MapInfo.covers (d : MapInfo) (a : Nat) : Prop :=
  d.dst ≤ a ∧ a < d.dst + d.len

instance (d : MapInfo) (a : Nat) : Decidable (d.covers a) := by
  unfold MapInfo.covers
  exact inferInstance

/-- The region byte-cell a covering directive makes flat address `a` alias
(cell `src + (a - dst)` of the directive's region). -/
def MapInfo.cellAt (d : MapInfo) (a : Nat) : Cell :=
  match d with
  | .ROM s t _ => .rom (s + (a - t))
  | .WRAM s t _ => .wram (s + (a - t))
  | .SRAM s t _ => .sram (s + (a - t))

/-- Save RAM region: a Rust `Box of AtomicU8` (length plus contents). -/
structure SRAMData where
  len : Nat
  data : Nat → Nat

/-- MemoryMap mirrors the `MemoryMap` struct of src/memory/mod.rs: the two
decode tables and the three byte regions. -/
structure MemoryMap where
  readable : Nat → Option Cell
  writable : Nat → Option Cell
  rom : Nat → Nat
  romLen : Nat
  wram : Nat → Nat
  wramLen : Nat
  sram : Option SRAMData

/-- Install a directive into the read table: each covered slot gets a pointer
to the corresponding region byte (last writer wins, as in the Rust loop). -/
def applyRead (t : Nat → Option Cell) (d : MapInfo) : Nat → Option Cell :=
  fun a => if d.covers a then some (d.cellAt a) else t a

/-- Install a directive into the write table. -/
def applyWrite (t : Nat → Option Cell) (d : MapInfo) : Nat → Option Cell :=
  fun a => if d.covers a then some (d.cellAt a) else t a

/-- One iteration of the `for` loop of `MemoryMap::map`.  The slice
indexings `self.readable[dst..dst+len]`, `self.rom[src..src+len]` (and the
region analogues) panic when a range end exceeds the slice length, and the
`SRAM` arm additionally unwraps `self.sram`; a panic is `none`. -/
def applyDirective (m : MemoryMap) (d : MapInfo) : Option MemoryMap :=
  match d with
  | .ROM s t l =>
      if s + l ≤ m.romLen ∧ t + l ≤ MAP_SIZE then
        some { m with readable := applyRead m.readable (.ROM s t l) }
      else
        none
  | .WRAM s t l =>
      if s + l ≤ m.wramLen ∧ t + l ≤ MAP_SIZE then
        some { m with readable := applyRead m.readable (.WRAM s t l),
                      writable := applyWrite m.writable (.WRAM s t l) }
      else
        none
  | .SRAM s t l =>
      match m.sram with
      | none => none
      | some sr =>
          if s + l ≤ sr.len ∧ t + l ≤ MAP_SIZE then
            some { m with readable := applyRead m.readable (.SRAM s t l),
                          writable := applyWrite m.writable (.SRAM s t l) }
          else
            none

/-- MemoryMap::map: apply the directives in order. -/
def MemoryMap.map (m : MemoryMap) (info : List MapInfo) : Option MemoryMap :=
  info.foldlM applyDirective m

/-- Rust `(s..e).step_by(step)` over a `usize` range (`step = 0` panics in
Rust; that call is unreachable from `from_cartridge`, which never constructs
a save RAM, and is given the empty list here). -/
def stepBy (s e step : Nat) : List Nat :=
  if step = 0 then [] else List.range' s ((e - s + step - 1) / step) step

/-- Rust `it.step_by(step)` applied to an already-chained iterator: every
`step`-th element of the underlying list, counting across the chain
boundary. -/
def stepByChain (l : List Nat) (step : Nat) : List Nat :=
  if step = 0 then [] else (l.enum.filter (fun p => p.1 % step = 0)).map (fun p => p.2)

/-- WRAM directives pushed first by `from_cartridge` for every mode: the low
8 KiB of banks 0x00-0x3F and 0x80-0xBF mirrors WRAM page 0, and banks
0x7E-0x7F show the whole WRAM. -/
def wramDirs (wramLen : Nat) : List MapInfo :=
  ((List.range' 0x00 0x40 ++ List.range' 0x80 0x40).map
    (fun i => MapInfo.WRAM 0 (i <<< 16) 0x2000))
  ++ [MapInfo.WRAM 0 0x7E0000 wramLen]

/-- LoROM ROM directives: chunk `i & 0x7F` at the upper half of each bank,
for banks whose chunk starts inside the ROM. -/
def loROMRomDirs (romLen : Nat) : List MapInfo :=
  ((List.range' 0x00 0x7E ++ List.range' 0x80 0x80).filter
    (fun i => (i &&& 0x7F) * 0x8000 < romLen)).map
    (fun i => MapInfo.ROM ((i &&& 0x7F) * 0x8000) ((i <<< 16) ||| 0x8000) 0x8000)

/-- LoROM ROM mirror directives (no save RAM): the same chunk at the lower
half of banks 0x40-0x7D and 0xC0-0xFF. -/
def loROMMirrorDirs (romLen : Nat) : List MapInfo :=
  ((List.range' 0x40 0x3E ++ List.range' 0xC0 0x40).filter
    (fun i => (i &&& 0x7F) * 0x8000 < romLen)).map
    (fun i => MapInfo.ROM ((i &&& 0x7F) * 0x8000) (i <<< 16) 0x8000)

/-- LoROM small save RAM (`sram_size ≤ 0x8000`): tiled across the lower half
of banks 0x70-0x7D and 0xF0-0xFF in `sram_size` steps. -/
def loROMSramSmallDirs (sramSize : Nat) : List MapInfo :=
  ((List.range' 0x70 0xE ++ List.range' 0xF0 0x10).flatMap
    (fun i => stepBy (i <<< 16) ((i <<< 16) ||| 0x8000) sramSize)).map
    (fun dst => MapInfo.SRAM 0 dst sramSize)

/-- LoROM large save RAM: blocks stepped through the chained flat ranges
0x700000-0x7DFFFF and 0xF00000-0xFFFFFF. -/
def loROMSramLargeDirs (sramSize : Nat) : List MapInfo :=
  (stepByChain (List.range' 0x700000 0xE0000 ++ List.range' 0xF00000 0x100000) sramSize).map
    (fun dst => MapInfo.SRAM 0 dst sramSize)

/-- HiROM ROM directives, first batch: the upper 32 KiB of chunk `i & 0x3F`
at the upper half of banks 0x00-0x3F and 0x80-0xBF, for banks whose chunk
offset `(i & 0x3F) << 16 | 0x8000` is below the ROM length. -/
def hiROMRomDirs1 (romLen : Nat) : List MapInfo :=
  ((List.range' 0x00 0x40 ++ List.range' 0x80 0x40).filter
    (fun i => ((i &&& 0x3F) <<< 16) ||| 0x8000 < romLen)).map
    (fun i => MapInfo.ROM (((i &&& 0x3F) <<< 16) ||| 0x8000) ((i <<< 16) ||| 0x8000) 0x8000)

/-- HiROM ROM directives, second batch: the full 64 KiB chunk `i & 0x3F` at
banks 0x40-0x7D and 0xC0-0xFF, for banks whose chunk offset is below the ROM
length. -/
def hiROMRomDirs2 (romLen : Nat) : List MapInfo :=
  ((List.range' 0x40 0x3E ++ List.range' 0xC0 0x40).filter
    (fun i => ((i &&& 0x3F) <<< 16) < romLen)).map
    (fun i => MapInfo.ROM ((i &&& 0x3F) <<< 16) (i <<< 16) 0x10000)

/-- HiROM save RAM directives: tiled into offsets 0x6000-0x7FFF of banks
0x20-0x3F and 0xA0-0xBF in `sram_size` steps. -/
def hiROMSramDirs (sramSize : Nat) : List MapInfo :=
  ((List.range' 0x20 0x20 ++ List.range' 0xA0 0x20).flatMap
    (fun i => stepBy ((i <<< 16) ||| 0x6000) ((i <<< 16) ||| 0x8000) sramSize)).map
    (fun dst => MapInfo.SRAM 0 dst sramSize)

/-- The engine state assembled by `from_cartridge` before any directive is
applied: empty decode tables, the cartridge image copied into the ROM region
(`u8` contents), 128 KiB of zeroed WRAM, and `sram = None` (the Rust
constructor never allocates save RAM). -/
def initialMap (c : Cartridge) : MemoryMap :=
  { readable := fun _ => none
    writable := fun _ => none
    rom := fun i => c.rom i % 256
    romLen := c.romLen
    wram := fun _ => 0
    wramLen := 2 * PAGE_SIZE
    sram := none }

/-- MemoryMap::from_cartridge.  The `assert` failures of either mode and the
`todo` of a missing hint are panics (`none`); otherwise the directive list is
generated in source order (WRAM, then mode-specific ROM, then SRAM or the
LoROM mirror) and applied by `MemoryMap::map`. -/
def from_cartridge (c : Cartridge) (hint : Option ROMType) : Option MemoryMap :=
  let m0 := initialMap c
  let base := wramDirs m0.wramLen
  match hint with
  | some .LoROM =>
      if m0.romLen ≤ 0x400000 then
        let tail :=
          match m0.sram with
          | some sr =>
              if sr.len ≤ 0x8000 then loROMSramSmallDirs sr.len
              else loROMSramLargeDirs sr.len
          | none => loROMMirrorDirs m0.romLen
        m0.map (base ++ loROMRomDirs m0.romLen ++ tail)
      else none
  | some .HiROM =>
      if (match m0.sram with | some sr => sr.len | none => 0) ≤ 0x2000 then
        let tail :=
          match m0.sram with
          | some sr => hiROMSramDirs sr.len
          | none => []
        m0.map (base ++ hiROMRomDirs1 m0.romLen ++ hiROMRomDirs2 m0.romLen ++ tail)
      else none
  | none => none

/-- Dereference a decode-table cell: load the byte it aliases.  A `sram`
cell with no save RAM present is impossible for a constructed engine (the
Rust code would have panicked installing it); the model returns 0 there. -/
def MemoryMap.load (m : MemoryMap) : Cell → Nat
  | .rom i => m.rom i
  | .wram i => m.wram i
  | .sram i =>
      match m.sram with
      | some sr => sr.data i
      | none => 0

/-- Store a byte into the region cell a write-table slot aliases. -/
def MemoryMap.store (m : MemoryMap) (c : Cell) (value : Nat) : MemoryMap :=
  match c with
  | .rom i => { m with rom := fun j => if j = i then value % 256 else m.rom j }
  | .wram i => { m with wram := fun j => if j = i then value % 256 else m.wram j }
  | .sram i =>
      match m.sram with
      | some sr =>
          { m with sram := some { sr with data := fun j => if j = i then value % 256 else sr.data j } }
      | none => m

/-- MemoryMap::read: unchecked read-table lookup at the flat index (in
bounds only below `MAP_SIZE`), then either the aliased byte or the open-bus
sentinel 0x55. -/
def MemoryMap.read (m : MemoryMap) (offset : Address24) : Option Nat :=
  if offset.toIndex < MAP_SIZE then
    some (match m.readable offset.toIndex with
          | some c => m.load c
          | none => 0x55)
  else none

/-- MemoryMap::write: unchecked write-table lookup at the flat index, then
either a store through the aliased cell or a silent discard. -/
def MemoryMap.write (m : MemoryMap) (offset : Address24) (value : Nat) : Option MemoryMap :=
  if offset.toIndex < MAP_SIZE then
    some (match m.writable offset.toIndex with
          | some c => m.store c value
          | none => m)
  else none

/-!
Arithmetic helpers: the directive generator writes destinations with shifts
and bitwise or of disjoint parts; these rewrite them into plain arithmetic.
-/

lemma mem_range1 {s n m : Nat} : m ∈ List.range' s n ↔ s ≤ m ∧ m < s + n := by
  rw [List.mem_range']
  constructor
  · rintro ⟨i, hi, rfl⟩
    omega
  · intro h
    exact ⟨m - s, by omega, by omega⟩

lemma shl16 (i : Nat) : i <<< 16 = i * 0x10000 := by
  rw [Nat.shiftLeft_eq]

lemma mul_or {a b : Nat} (hb : b < 0x10000) : a * 0x10000 ||| b = a * 0x10000 + b := by
  have e : (0x10000 : Nat) = 2 ^ 16 := by norm_num
  rw [e] at hb ⊢
  rw [Nat.mul_comm]
  exact (Nat.mul_add_lt_is_or hb a).symm

lemma and7F (i : Nat) : i &&& 0x7F = i % 0x80 := by
  have e : (0x7F : Nat) = 2 ^ 7 - 1 := by norm_num
  rw [e, Nat.and_pow_two_sub_one_eq_mod]

lemma and3F (i : Nat) : i &&& 0x3F = i % 0x40 := by
  have e : (0x3F : Nat) = 2 ^ 6 - 1 := by norm_num
  rw [e, Nat.and_pow_two_sub_one_eq_mod]

/-!
Resolution of a directive list at one flat address.  `MemoryMap::map` applies
directives in order with last-writer-wins per slot, so a table lookup resolves
to the last directive covering the address; `lastHit` computes it.
-/

/-- Last directive of `l` covering `a` (directives are applied left to right,
so the rightmost covering one determines the final table slot). -/
def lastHit (l : List MapInfo) (a : Nat) : Option MapInfo :=
  l.foldl (fun acc d => if d.covers a then some d else acc) none

/-- Fall back to `acc` when no directive hit. -/
def ifNone (o acc : Option MapInfo) : Option MapInfo :=
  match o with
  | some d => some d
  | none => acc

@[simp] lemma ifNone_some (d : MapInfo) (acc : Option MapInfo) :
    ifNone (some d) acc = some d := rfl

@[simp] lemma ifNone_none (acc : Option MapInfo) : ifNone none acc = acc := rfl

@[simp] lemma lastHit_nil (a : Nat) : lastHit [] a = none := rfl

lemma foldl_hits (l : List MapInfo) (a : Nat) (acc : Option MapInfo) :
    l.foldl (fun acc d => if d.covers a then some d else acc) acc =
      ifNone (lastHit l a) acc := by
  induction l generalizing acc with
  | nil => rfl
  | cons d l ih =>
    show l.foldl _ (if d.covers a then some d else acc) = ifNone (lastHit (d :: l) a) acc
    have hc : lastHit (d :: l) a =
        ifNone (lastHit l a) (if d.covers a then some d else none) := by
      show l.foldl _ (if d.covers a then some d else none) = _
      rw [ih]
    rw [ih, hc]
    cases h : lastHit l a with
    | some x => rfl
    | none =>
      by_cases hcov : d.covers a <;> simp [hcov]

lemma lastHit_cons (d : MapInfo) (l : List MapInfo) (a : Nat) :
    lastHit (d :: l) a = ifNone (lastHit l a) (if d.covers a then some d else none) := by
  show l.foldl _ (if d.covers a then some d else none) = _
  rw [foldl_hits]

lemma lastHit_append (l1 l2 : List MapInfo) (a : Nat) :
    lastHit (l1 ++ l2) a = ifNone (lastHit l2 a) (lastHit l1 a) := by
  unfold lastHit
  rw [List.foldl_append]
  exact foldl_hits l2 a _

lemma lastHit_none (l : List MapInfo) (a : Nat) (h : ∀ d ∈ l, ¬ d.covers a) :
    lastHit l a = none := by
  induction l with
  | nil => rfl
  | cons d l ih =>
    rw [lastHit_cons, ih (fun d hd => h d (List.mem_cons_of_mem _ hd)),
      if_neg (h d (List.mem_cons_self _ _))]
    rfl

lemma lastHit_mem {l : List MapInfo} {a : Nat} {d : MapInfo}
    (h : lastHit l a = some d) : d ∈ l ∧ d.covers a := by
  induction l with
  | nil => simp [lastHit] at h
  | cons x l ih =>
    rw [lastHit_cons] at h
    cases hl : lastHit l a with
    | some y =>
      rw [hl] at h
      obtain rfl : y = d := by simpa [ifNone] using h
      exact ⟨List.mem_cons_of_mem _ (ih hl).1, (ih hl).2⟩
    | none =>
      rw [hl] at h
      by_cases hcov : x.covers a
      · rw [if_pos hcov] at h
        obtain rfl : x = d := by simpa [ifNone] using h
        exact ⟨List.mem_cons_self _ _, hcov⟩
      · rw [if_neg hcov] at h
        simp [ifNone] at h

lemma lastHit_map_unique (f : Nat → MapInfo) (l : List Nat) (a : Nat) (i0 : Nat)
    (h : ∀ i ∈ l, ((f i).covers a ↔ i = i0)) :
    lastHit (l.map f) a = if i0 ∈ l then some (f i0) else none := by
  induction l with
  | nil => simp
  | cons x l ih =>
    rw [List.map_cons, lastHit_cons]
    have hx := h x (List.mem_cons_self _ _)
    have ht : ∀ i ∈ l, ((f i).covers a ↔ i = i0) :=
      fun i hi => h i (List.mem_cons_of_mem _ hi)
    rw [ih ht]
    by_cases hi0 : i0 ∈ l
    · rw [if_pos hi0, if_pos (List.mem_cons_of_mem _ hi0)]
      rfl
    · rw [if_neg hi0]
      by_cases hcov : (f x).covers a
      · obtain rfl : x = i0 := hx.mp hcov
        rw [if_pos hcov, if_pos (List.mem_cons_self _ _)]
        rfl
      · have hne : ¬ x = i0 := fun he => hcov (hx.mpr he)
        rw [if_neg hcov, if_neg (by simp only [List.mem_cons]; tauto)]
        rfl

/-!
Structure of a successful `MemoryMap::map` run: the final tables resolve each
address through the last covering directive, and region contents are
untouched.
-/

/-- Table slot produced by an optional covering directive, else the previous
slot contents. -/
def resolveCell (o : Option MapInfo) (a : Nat) (t : Option Cell) : Option Cell :=
  match o with
  | some d => some (d.cellAt a)
  | none => t

@[simp] lemma resolveCell_some (d : MapInfo) (a : Nat) (t : Option Cell) :
    resolveCell (some d) a t = some (d.cellAt a) := rfl

@[simp] lemma resolveCell_none (a : Nat) (t : Option Cell) :
    resolveCell none a t = t := rfl

lemma applyDirective_eq {m : MemoryMap} {d : MapInfo} {m' : MemoryMap}
    (h : applyDirective m d = some m') :
    m'.readable = applyRead m.readable d ∧
    m'.writable = (if d.isRW then applyWrite m.writable d else m.writable) ∧
    m'.rom = m.rom ∧ m'.romLen = m.romLen ∧ m'.wram = m.wram ∧
    m'.wramLen = m.wramLen ∧ m'.sram = m.sram := by
  cases d with
  | ROM s t l =>
    simp only [applyDirective] at h
    split at h
    · obtain rfl := Option.some.inj h
      exact ⟨rfl, by simp [MapInfo.isRW], rfl, rfl, rfl, rfl, rfl⟩
    · exact absurd h (by simp)
  | WRAM s t l =>
    simp only [applyDirective] at h
    split at h
    · obtain rfl := Option.some.inj h
      exact ⟨rfl, by simp [MapInfo.isRW], rfl, rfl, rfl, rfl, rfl⟩
    · exact absurd h (by simp)
  | SRAM s t l =>
    simp only [applyDirective] at h
    split at h
    · exact absurd h (by simp)
    · split at h
      · obtain rfl := Option.some.inj h
        exact ⟨rfl, by simp [MapInfo.isRW], rfl, rfl, rfl, rfl, rfl⟩
      · exact absurd h (by simp)

lemma map_nil (m : MemoryMap) : m.map [] = some m := rfl

lemma map_cons (m : MemoryMap) (d : MapInfo) (l : List MapInfo) :
    m.map (d :: l) = (applyDirective m d).bind (fun m1 => m1.map l) := rfl

lemma map_readable {l : List MapInfo} : ∀ {m m' : MemoryMap}, m.map l = some m' →
    ∀ a, m'.readable a = resolveCell (lastHit l a) a (m.readable a) := by
  induction l with
  | nil =>
    intro m m' h a
    obtain rfl := Option.some.inj h
    rfl
  | cons d l ih =>
    intro m m' h a
    rw [map_cons] at h
    obtain ⟨m1, h1, h2⟩ := Option.bind_eq_some.mp h
    rw [ih h2, (applyDirective_eq h1).1, lastHit_cons]
    cases hl : lastHit l a with
    | some x => rfl
    | none =>
      by_cases hcov : d.covers a <;> simp [applyRead, hcov, ifNone]

lemma map_writable {l : List MapInfo} : ∀ {m m' : MemoryMap}, m.map l = some m' →
    ∀ a, m'.writable a =
      resolveCell (lastHit (l.filter MapInfo.isRW) a) a (m.writable a) := by
  induction l with
  | nil =>
    intro m m' h a
    obtain rfl := Option.some.inj h
    rfl
  | cons d l ih =>
    intro m m' h a
    rw [map_cons] at h
    obtain ⟨m1, h1, h2⟩ := Option.bind_eq_some.mp h
    have hw := (applyDirective_eq h1).2.1
    rw [ih h2, List.filter_cons]
    by_cases hrw : d.isRW = true
    · rw [if_pos hrw, hw, if_pos hrw, lastHit_cons]
      cases hl : lastHit (l.filter MapInfo.isRW) a with
      | some x => rfl
      | none =>
        by_cases hcov : d.covers a <;> simp [applyWrite, hcov, ifNone]
    · rw [if_neg hrw, hw, if_neg hrw]

lemma map_fields {l : List MapInfo} : ∀ {m m' : MemoryMap}, m.map l = some m' →
    m'.rom = m.rom ∧ m'.romLen = m.romLen ∧ m'.wram = m.wram ∧
    m'.wramLen = m.wramLen ∧ m'.sram = m.sram := by
  induction l with
  | nil =>
    intro m m' h
    obtain rfl := Option.some.inj h
    exact ⟨rfl, rfl, rfl, rfl, rfl⟩
  | cons d l ih =>
    intro m m' h
    rw [map_cons] at h
    obtain ⟨m1, h1, h2⟩ := Option.bind_eq_some.mp h
    obtain ⟨_, _, e1, e2, e3, e4, e5⟩ := applyDirective_eq h1
    obtain ⟨f1, f2, f3, f4, f5⟩ := ih h2
    exact ⟨f1.trans e1, f2.trans e2, f3.trans e3, f4.trans e4, f5.trans e5⟩

/-!
Unfolding equations for `from_cartridge` (the `sram` field of the freshly
allocated engine is `none`, so the save-RAM branches reduce away).
-/

lemma from_cartridge_none (c : Cartridge) : from_cartridge c none = none := rfl

lemma from_cartridge_loROM (c : Cartridge) :
    from_cartridge c (some ROMType.LoROM) =
      if c.romLen ≤ 0x400000 then
        (initialMap c).map
          (wramDirs (2 * PAGE_SIZE) ++ loROMRomDirs c.romLen ++ loROMMirrorDirs c.romLen)
      else none := rfl

lemma from_cartridge_hiROM (c : Cartridge) :
    from_cartridge c (some ROMType.HiROM) =
      (initialMap c).map
        (wramDirs (2 * PAGE_SIZE) ++ hiROMRomDirs1 c.romLen ++ hiROMRomDirs2 c.romLen
          ++ []) := rfl

lemma from_cartridge_as_map {c : Cartridge} {hint : Option ROMType} {m : MemoryMap}
    (h : from_cartridge c hint = some m) :
    ∃ L, (initialMap c).map L = some m := by
  cases hint with
  | none => exact absurd h (by simp [from_cartridge_none])
  | some t =>
    cases t with
    | LoROM =>
      rw [from_cartridge_loROM] at h
      split at h
      · exact ⟨_, h⟩
      · exact absurd h (by simp)
    | HiROM =>
      rw [from_cartridge_hiROM] at h
      exact ⟨_, h⟩

lemma from_cartridge_fields {c : Cartridge} {hint : Option ROMType} {m : MemoryMap}
    (h : from_cartridge c hint = some m) :
    m.rom = (fun i => c.rom i % 256) ∧ m.romLen = c.romLen ∧
    m.wram = (fun _ => 0) ∧ m.wramLen = 2 * PAGE_SIZE ∧ m.sram = none := by
  obtain ⟨L, hL⟩ := from_cartridge_as_map h
  exact map_fields hL

/-- A store never moves the decode tables. -/
lemma store_tables (m : MemoryMap) (c : Cell) (v : Nat) :
    (m.store c v).readable = m.readable ∧ (m.store c v).writable = m.writable := by
  cases c with
  | rom i => exact ⟨rfl, rfl⟩
  | wram i => exact ⟨rfl, rfl⟩
  | sram i =>
    unfold MemoryMap.store
    cases m.sram <;> exact ⟨rfl, rfl⟩

/-- A store through a non-ROM cell never changes the ROM region. -/
lemma store_rom_of_ne (m : MemoryMap) (c : Cell) (v : Nat)
    (h : ∀ i, c ≠ Cell.rom i) : (m.store c v).rom = m.rom := by
  cases c with
  | rom i => exact absurd rfl (h i)
  | wram i => rfl
  | sram i =>
    unfold MemoryMap.store
    cases m.sram <;> rfl

/-!
Where each directive family hits.  Flat addresses are decomposed as
`bank * 0x10000 + off` with `off < 0x10000`.
-/

lemma lastHit_map_cond (f : Nat → MapInfo) (l : List Nat) (a i0 : Nat) (P : Prop)
    [Decidable P] (hcov : ∀ i ∈ l, ((f i).covers a ↔ i = i0 ∧ P)) :
    lastHit (l.map f) a = if i0 ∈ l ∧ P then some (f i0) else none := by
  by_cases hP : P
  · rw [lastHit_map_unique f l a i0 (fun i hi => by rw [hcov i hi]; simp [hP])]
    simp [hP]
  · rw [lastHit_none _ _ ?none]
    · simp [hP]
    · intro d hd
      rw [List.mem_map] at hd
      obtain ⟨i, hi, rfl⟩ := hd
      rw [hcov i hi]
      tauto

lemma lastHit_wram (bank off : Nat) (hoff : off < 0x10000) :
    lastHit (wramDirs (2 * PAGE_SIZE)) (bank * 0x10000 + off) =
      if bank = 0x7E ∨ bank = 0x7F then
        some (MapInfo.WRAM 0 0x7E0000 (2 * PAGE_SIZE))
      else if (bank < 0x40 ∨ (0x80 ≤ bank ∧ bank < 0xC0)) ∧ off < 0x2000 then
        some (MapInfo.WRAM 0 (bank <<< 16) 0x2000)
      else none := by
  unfold wramDirs
  rw [lastHit_append]
  have hfull : lastHit [MapInfo.WRAM 0 0x7E0000 (2 * PAGE_SIZE)] (bank * 0x10000 + off) =
      if bank = 0x7E ∨ bank = 0x7F then
        some (MapInfo.WRAM 0 0x7E0000 (2 * PAGE_SIZE))
      else none := by
    rw [lastHit_cons, lastHit_nil, ifNone_none]
    refine if_congr ?_ rfl rfl
    simp only [MapInfo.covers, MapInfo.dst, MapInfo.len, PAGE_SIZE]
    omega
  rw [hfull]
  by_cases hb : bank = 0x7E ∨ bank = 0x7F
  · rw [if_pos hb, if_pos hb, ifNone_some]
  · rw [if_neg hb, if_neg hb, ifNone_none]
    rw [lastHit_map_cond _ _ _ bank (off < 0x2000) ?hcov]
    · refine if_congr ?_ rfl rfl
      constructor
      · rintro ⟨hm, h2⟩
        rw [List.mem_append, mem_range1, mem_range1] at hm
        exact ⟨by omega, h2⟩
      · rintro ⟨h1, h2⟩
        refine ⟨?_, h2⟩
        rw [List.mem_append, mem_range1, mem_range1]
        omega
    · intro i hi
      simp only [MapInfo.covers, MapInfo.dst, MapInfo.len, shl16]
      omega

lemma lastHit_loRom (romLen bank off : Nat) (hoff : off < 0x10000) :
    lastHit (loROMRomDirs romLen) (bank * 0x10000 + off) =
      if ((bank < 0x7E ∨ (0x80 ≤ bank ∧ bank < 0x100)) ∧
            (bank &&& 0x7F) * 0x8000 < romLen) ∧ 0x8000 ≤ off then
        some (MapInfo.ROM ((bank &&& 0x7F) * 0x8000) ((bank <<< 16) ||| 0x8000) 0x8000)
      else none := by
  unfold loROMRomDirs
  rw [lastHit_map_cond _ _ _ bank (0x8000 ≤ off) ?hcov]
  · refine if_congr ?_ rfl rfl
    constructor
    · rintro ⟨hm, h2⟩
      rw [List.mem_filter, List.mem_append, mem_range1, mem_range1,
        decide_eq_true_iff] at hm
      exact ⟨⟨by omega, hm.2⟩, h2⟩
    · rintro ⟨⟨h1, h2⟩, h3⟩
      refine ⟨?_, h3⟩
      rw [List.mem_filter, List.mem_append, mem_range1, mem_range1,
        decide_eq_true_iff]
      exact ⟨by omega, h2⟩
  · intro i hi
    simp only [MapInfo.covers, MapInfo.dst, MapInfo.len, shl16,
      mul_or (by omega : (0x8000 : Nat) < 0x10000)]
    omega

lemma lastHit_loMirror (romLen bank off : Nat) (hoff : off < 0x10000) :
    lastHit (loROMMirrorDirs romLen) (bank * 0x10000 + off) =
      if (((0x40 ≤ bank ∧ bank < 0x7E) ∨ (0xC0 ≤ bank ∧ bank < 0x100)) ∧
            (bank &&& 0x7F) * 0x8000 < romLen) ∧ off < 0x8000 then
        some (MapInfo.ROM ((bank &&& 0x7F) * 0x8000) (bank <<< 16) 0x8000)
      else none := by
  unfold loROMMirrorDirs
  rw [lastHit_map_cond _ _ _ bank (off < 0x8000) ?hcov]
  · refine if_congr ?_ rfl rfl
    constructor
    · rintro ⟨hm, h2⟩
      rw [List.mem_filter, List.mem_append, mem_range1, mem_range1,
        decide_eq_true_iff] at hm
      exact ⟨⟨by omega, hm.2⟩, h2⟩
    · rintro ⟨⟨h1, h2⟩, h3⟩
      refine ⟨?_, h3⟩
      rw [List.mem_filter, List.mem_append, mem_range1, mem_range1,
        decide_eq_true_iff]
      exact ⟨by omega, h2⟩
  · intro i hi
    simp only [MapInfo.covers, MapInfo.dst, MapInfo.len, shl16]
    omega

lemma lastHit_hiRom1 (romLen bank off : Nat) (hoff : off < 0x10000) :
    lastHit (hiROMRomDirs1 romLen) (bank * 0x10000 + off) =
      if ((bank < 0x40 ∨ (0x80 ≤ bank ∧ bank < 0xC0)) ∧
            ((bank &&& 0x3F) <<< 16) ||| 0x8000 < romLen) ∧ 0x8000 ≤ off then
        some (MapInfo.ROM (((bank &&& 0x3F) <<< 16) ||| 0x8000)
          ((bank <<< 16) ||| 0x8000) 0x8000)
      else none := by
  unfold hiROMRomDirs1
  rw [lastHit_map_cond _ _ _ bank (0x8000 ≤ off) ?hcov]
  · refine if_congr ?_ rfl rfl
    constructor
    · rintro ⟨hm, h2⟩
      rw [List.mem_filter, List.mem_append, mem_range1, mem_range1,
        decide_eq_true_iff] at hm
      exact ⟨⟨by omega, hm.2⟩, h2⟩
    · rintro ⟨⟨h1, h2⟩, h3⟩
      refine ⟨?_, h3⟩
      rw [List.mem_filter, List.mem_append, mem_range1, mem_range1,
        decide_eq_true_iff]
      exact ⟨by omega, h2⟩
  · intro i hi
    simp only [MapInfo.covers, MapInfo.dst, MapInfo.len, shl16,
      mul_or (by omega : (0x8000 : Nat) < 0x10000)]
    omega

lemma lastHit_hiRom2 (romLen bank off : Nat) (hoff : off < 0x10000) :
    lastHit (hiROMRomDirs2 romLen) (bank * 0x10000 + off) =
      if (((0x40 ≤ bank ∧ bank < 0x7E) ∨ (0xC0 ≤ bank ∧ bank < 0x100)) ∧
            ((bank &&& 0x3F) <<< 16) < romLen) ∧ off < 0x10000 then
        some (MapInfo.ROM ((bank &&& 0x3F) <<< 16) (bank <<< 16) 0x10000)
      else none := by
  unfold hiROMRomDirs2
  rw [lastHit_map_cond _ _ _ bank (off < 0x10000) ?hcov]
  · refine if_congr ?_ rfl rfl
    constructor
    · rintro ⟨hm, h2⟩
      rw [List.mem_filter, List.mem_append, mem_range1, mem_range1,
        decide_eq_true_iff] at hm
      exact ⟨⟨by omega, hm.2⟩, h2⟩
    · rintro ⟨⟨h1, h2⟩, h3⟩
      refine ⟨?_, h3⟩
      rw [List.mem_filter, List.mem_append, mem_range1, mem_range1,
        decide_eq_true_iff]
      exact ⟨by omega, h2⟩
  · intro i hi
    simp only [MapInfo.covers, MapInfo.dst, MapInfo.len, shl16]
    omega

/-!
Read and write always find their table slot in bounds, and the per-mode
decode tables resolve through the directive families above.
-/

lemma addr_lt_MAP (a : Address24) : a.toIndex < MAP_SIZE := by
  have := a.isLt
  simp only [Address24.toIndex, MAP_SIZE, PAGE_SIZE]
  omega

lemma read_eq (m : MemoryMap) (a : Address24) :
    m.read a = some (match m.readable a.toIndex with
      | some c => m.load c
      | none => 0x55) := by
  unfold MemoryMap.read
  rw [if_pos (addr_lt_MAP a)]

lemma write_eq (m : MemoryMap) (a : Address24) (v : Nat) :
    m.write a v = some (match m.writable a.toIndex with
      | some c => m.store c v
      | none => m) := by
  unfold MemoryMap.write
  rw [if_pos (addr_lt_MAP a)]

lemma wramDirs_filter :
    (wramDirs (2 * PAGE_SIZE)).filter MapInfo.isRW = wramDirs (2 * PAGE_SIZE) := by
  rw [List.filter_eq_self]
  intro d hd
  unfold wramDirs at hd
  rw [List.mem_append] at hd
  rcases hd with hd | hd
  · rw [List.mem_map] at hd
    obtain ⟨i, _, rfl⟩ := hd
    rfl
  · rw [List.mem_singleton] at hd
    subst hd
    rfl

lemma filter_rw_map_rom (g1 g2 g3 : Nat → Nat) (l : List Nat) :
    (l.map (fun i => MapInfo.ROM (g1 i) (g2 i) (g3 i))).filter MapInfo.isRW = [] := by
  rw [List.filter_eq_nil_iff]
  intro d hd
  rw [List.mem_map] at hd
  obtain ⟨i, _, rfl⟩ := hd
  simp [MapInfo.isRW]

lemma loRomDirs_filter (romLen : Nat) :
    (loROMRomDirs romLen).filter MapInfo.isRW = [] := by
  unfold loROMRomDirs
  exact filter_rw_map_rom _ _ _ _

lemma loMirrorDirs_filter (romLen : Nat) :
    (loROMMirrorDirs romLen).filter MapInfo.isRW = [] := by
  unfold loROMMirrorDirs
  exact filter_rw_map_rom _ _ _ _

lemma hiRom1_filter (romLen : Nat) :
    (hiROMRomDirs1 romLen).filter MapInfo.isRW = [] := by
  unfold hiROMRomDirs1
  exact filter_rw_map_rom _ _ _ _

lemma hiRom2_filter (romLen : Nat) :
    (hiROMRomDirs2 romLen).filter MapInfo.isRW = [] := by
  unfold hiROMRomDirs2
  exact filter_rw_map_rom _ _ _ _

lemma loROM_tables {c : Cartridge} {m : MemoryMap}
    (h : from_cartridge c (some ROMType.LoROM) = some m) (a : Nat) :
    m.readable a =
      resolveCell (ifNone (lastHit (loROMMirrorDirs c.romLen) a)
        (ifNone (lastHit (loROMRomDirs c.romLen) a)
          (lastHit (wramDirs (2 * PAGE_SIZE)) a))) a none ∧
    m.writable a = resolveCell (lastHit (wramDirs (2 * PAGE_SIZE)) a) a none := by
  rw [from_cartridge_loROM] at h
  split at h
  · constructor
    · rw [map_readable h a, lastHit_append, lastHit_append]
      rfl
    · rw [map_writable h a, List.filter_append, List.filter_append, wramDirs_filter,
        loRomDirs_filter, loMirrorDirs_filter, List.append_nil, List.append_nil]
      rfl
  · exact absurd h (by simp)

lemma hiROM_tables {c : Cartridge} {m : MemoryMap}
    (h : from_cartridge c (some ROMType.HiROM) = some m) (a : Nat) :
    m.readable a =
      resolveCell (ifNone (lastHit (hiROMRomDirs2 c.romLen) a)
        (ifNone (lastHit (hiROMRomDirs1 c.romLen) a)
          (lastHit (wramDirs (2 * PAGE_SIZE)) a))) a none ∧
    m.writable a = resolveCell (lastHit (wramDirs (2 * PAGE_SIZE)) a) a none := by
  rw [from_cartridge_hiROM, List.append_nil] at h
  constructor
  · rw [map_readable h a, lastHit_append, lastHit_append]
    rfl
  · rw [map_writable h a, List.filter_append, List.filter_append, wramDirs_filter,
      hiRom1_filter, hiRom2_filter, List.append_nil, List.append_nil]
    rfl

/-!
Helpers for the claim proofs: ROM never enters the write table; a write
leaves the tables and the ROM region intact; the low 8 KiB of every
WRAM-mirror bank aliases WRAM page 0.
-/

lemma writable_no_rom {c : Cartridge} {hint : Option ROMType} {m : MemoryMap}
    (h : from_cartridge c hint = some m) :
    ∀ x i, m.writable x ≠ some (Cell.rom i) := by
  obtain ⟨L, hL⟩ := from_cartridge_as_map h
  intro x i
  rw [map_writable hL x]
  cases hl : lastHit (L.filter MapInfo.isRW) x with
  | none => simp [initialMap]
  | some d =>
    obtain ⟨hmem, _⟩ := lastHit_mem hl
    rw [List.mem_filter] at hmem
    cases d with
    | ROM s t l => simp [MapInfo.isRW] at hmem
    | WRAM s t l => simp [MapInfo.cellAt]
    | SRAM s t l => simp [MapInfo.cellAt]

lemma write_preserves {m : MemoryMap} (hno : ∀ x i, m.writable x ≠ some (Cell.rom i))
    (a : Address24) (v : Nat) {m2 : MemoryMap} (h : m.write a v = some m2) :
    m2.rom = m.rom ∧ m2.readable = m.readable := by
  rw [write_eq] at h
  obtain rfl := Option.some.inj h
  cases hw : m.writable a.toIndex with
  | none => exact ⟨rfl, rfl⟩
  | some cl =>
    refine ⟨store_rom_of_ne m cl v ?_, (store_tables m cl v).1⟩
    intro i hi
    exact hno a.toIndex i (hi ▸ hw)

/-- The WRAM mirror banks: 0x00-0x3F, 0x80-0xBF, and bank 0x7E whose low
8 KiB window is WRAM page 0 itself. -/
def MirrorBank (b : Nat) : Prop :=
  b < 0x40 ∨ (0x80 ≤ b ∧ b < 0xC0) ∨ b = 0x7E

lemma mirror_wram_tables {c : Cartridge} {hint : Option ROMType} {m : MemoryMap}
    (h : from_cartridge c hint = some m)
    (bank off : Nat) (hb : MirrorBank bank) (hoff : off < 0x2000) :
    m.readable (bank * 0x10000 + off) = some (Cell.wram off) ∧
    m.writable (bank * 0x10000 + off) = some (Cell.wram off) := by
  have hoff16 : off < 0x10000 := by omega
  have hwram : resolveCell (lastHit (wramDirs (2 * PAGE_SIZE)) (bank * 0x10000 + off))
      (bank * 0x10000 + off) none = some (Cell.wram off) := by
    rw [lastHit_wram bank off hoff16]
    rcases hb with hb | hb | hb
    · rw [if_neg (by omega), if_pos ⟨by omega, hoff⟩]
      simp only [resolveCell_some, MapInfo.cellAt, shl16]
      exact congrArg (fun n => some (Cell.wram n)) (by omega)
    · rw [if_neg (by omega), if_pos ⟨by omega, hoff⟩]
      simp only [resolveCell_some, MapInfo.cellAt, shl16]
      exact congrArg (fun n => some (Cell.wram n)) (by omega)
    · subst hb
      rw [if_pos (by omega)]
      simp only [resolveCell_some, MapInfo.cellAt]
      exact congrArg (fun n => some (Cell.wram n)) (by omega)
  cases hint with
  | none => exact absurd h (by simp [from_cartridge_none])
  | some t =>
    cases t with
    | LoROM =>
      obtain ⟨hr, hw⟩ := loROM_tables h (bank * 0x10000 + off)
      have hmir : lastHit (loROMMirrorDirs c.romLen) (bank * 0x10000 + off) = none := by
        rw [lastHit_loMirror c.romLen bank off hoff16]
        refine if_neg ?_
        rintro ⟨⟨hr1, _⟩, _⟩
        rcases hb with hb | hb | hb <;> omega
      have hrom : lastHit (loROMRomDirs c.romLen) (bank * 0x10000 + off) = none := by
        rw [lastHit_loRom c.romLen bank off hoff16]
        refine if_neg ?_
        rintro ⟨_, h2⟩
        omega
      rw [hr, hw, hmir, hrom, ifNone_none, ifNone_none]
      exact ⟨hwram, hwram⟩
    | HiROM =>
      obtain ⟨hr, hw⟩ := hiROM_tables h (bank * 0x10000 + off)
      have h2 : lastHit (hiROMRomDirs2 c.romLen) (bank * 0x10000 + off) = none := by
        rw [lastHit_hiRom2 c.romLen bank off hoff16]
        refine if_neg ?_
        rintro ⟨⟨hr1, _⟩, _⟩
        rcases hb with hb | hb | hb <;> omega
      have h1 : lastHit (hiROMRomDirs1 c.romLen) (bank * 0x10000 + off) = none := by
        rw [lastHit_hiRom1 c.romLen bank off hoff16]
        refine if_neg ?_
        rintro ⟨_, h2⟩
        omega
      rw [hr, hw, h2, h1, ifNone_none, ifNone_none]
      exact ⟨hwram, hwram⟩

/-- Bits 16-23 of a 24-bit value, extracted by the mask `0xFF0000`, are its
value rounded down to a multiple of `0x10000`. -/
lemma and_FF0000 {x : Nat} (hx : x < 0x1000000) :
    x &&& 0xFF0000 = x / 0x10000 * 0x10000 := by
  apply Nat.eq_of_testBit_eq
  intro j
  have e1 : (0xFF0000 : Nat) = 2 ^ 16 * 0xFF := by norm_num
  have e2 : x / 0x10000 * 0x10000 = 2 ^ 16 * (x / 2 ^ 16) := by
    rw [Nat.mul_comm]
    norm_num
  rw [Nat.testBit_and, e1, e2, Nat.testBit_mul_pow_two, Nat.testBit_mul_pow_two]
  have hdiv : (x / 2 ^ 16).testBit (j - 16) = x.testBit (16 + (j - 16)) := by
    rw [← Nat.shiftRight_eq_div_pow, Nat.testBit_shiftRight]
  have hFF : (0xFF : Nat) = 2 ^ 8 - 1 := by norm_num
  rw [hdiv, hFF, Nat.testBit_two_pow_sub_one]
  by_cases hj : 16 ≤ j
  · have hj' : 16 + (j - 16) = j := by omega
    rw [hj']
    by_cases hj24 : j < 24
    · have h8 : j - 16 < 8 := by omega
      simp [ge_iff_le, hj, h8]
    · have hbit : x.testBit j = false := by
        apply Nat.testBit_lt_two_pow
        calc x < 0x1000000 := hx
          _ = 2 ^ 24 := by norm_num
          _ ≤ 2 ^ j := Nat.pow_le_pow_right (by omega) (by omega)
      simp [hbit]
  · simp [ge_iff_le, hj]

/-!
Concrete cartridges used by the claim theorems and witnesses.
-/

set_option maxRecDepth 100000

/-- A 32 KiB image of constant byte 0x37. -/
def cartA : Cartridge := ⟨fun _ => 0x37, 0x8000⟩

/-- A 32 KiB image of constant byte 0x11. -/
def cartA2 : Cartridge := ⟨fun _ => 0x11, 0x8000⟩

/-- A 64 KiB image whose byte at `i` is `i % 256`. -/
def cartB : Cartridge := ⟨fun i => i % 256, 0x10000⟩

/-- A 32 KiB image whose byte at `i` is `i % 256`. -/
def cartB32 : Cartridge := ⟨fun i => i % 256, 0x8000⟩

/-- A 0x208000-byte image whose byte at `i` is its 32 KiB chunk index. -/
def cartC : Cartridge := ⟨fun i => i / 0x8000 % 256, 0x208000⟩

/-- An image one byte longer than 4 MiB. -/
def cartHuge : Cartridge := ⟨fun _ => 0, 0x400001⟩

/-- Claim C1 (code bug): the spec expects a Mode B engine with a 64 KiB ROM
and 2 KiB of declared save RAM to back 0x206000 with save RAM, but
`from_cartridge` hard-codes `sram = None` (and `Cartridge` carries no
save-RAM size), so 0x206000 is unbacked: the write of 0x7F is silently
discarded and the read returns the open-bus byte 0x55, not 0x7F.  The ROM
half of the scenario does hold: the read at 0x008000 returns ROM byte
0x8000. -/
theorem spec_C1 :
    ((from_cartridge cartB (some ROMType.HiROM)).bind
      (fun m => (m.write (Address24.new 0x206000) 0x7F).bind
        (fun m2 => m2.read (Address24.new 0x206000)))) = some 0x55 ∧
    ((from_cartridge cartB (some ROMType.HiROM)).bind
      (fun m => m.read (Address24.new 0x008000))) = some (cartB.rom 0x8000 % 256) ∧
    cartB.rom 0x8000 % 256 = 0x00 ∧
    (0x55 : Nat) ≠ 0x7F :=
  ⟨by decide, by decide, by decide, by decide⟩

/-- Claim C2, counterexample: the claim says bank 0x40's upper half shows
chunk `(0x40 & 0x7F) mod 1 = 0` of a 32 KiB image, i.e. that
`read(0x408000)` returns ROM byte 0 (= 0x11); the engine leaves that bank
unbacked (no chunk modulo wrap exists) and returns 0x55. -/
theorem spec_C2_counterexample :
    ((from_cartridge cartA2 (some ROMType.LoROM)).bind
      (fun m => m.read (Address24.new 0x408000))) = some 0x55 ∧
    cartA2.rom 0 % 256 = 0x11 ∧
    (0x40 &&& 0x7F) % (cartA2.romLen / 0x8000) = 0 ∧
    (0x55 : Nat) ≠ 0x11 :=
  ⟨by decide, by decide, by decide, by decide⟩

/-- Claim C2, amended: in Mode A every bank in 0x00-0x7D and 0x80-0xFF
whose 32 KiB chunk starts inside the ROM (`(bank & 0x7F) * 0x8000 <
rom length`) shows that chunk at offsets 0x8000-0xFFFF; banks whose chunk
offset reaches past the ROM are left unbacked (read gives 0x55), with no
modulo wrap-around.  In particular for a 0x8000-byte image
`read(0x008000)` is ROM byte 0 and `read(0x408000)` is 0x55. -/
theorem spec_C2 (c : Cartridge) (m : MemoryMap)
    (h : from_cartridge c (some ROMType.LoROM) = some m)
    (bank off : Nat) (hb : bank < 0x7E ∨ (0x80 ≤ bank ∧ bank < 0x100))
    (ho1 : 0x8000 ≤ off) (ho2 : off < 0x10000)
    (a : Address24) (ha : a.toIndex = bank * 0x10000 + off) :
    m.readable a.toIndex =
      (if (bank &&& 0x7F) * 0x8000 < c.romLen then
        some (Cell.rom ((bank &&& 0x7F) * 0x8000 + (off - 0x8000)))
      else none) ∧
    m.read a = some (if (bank &&& 0x7F) * 0x8000 < c.romLen then
        c.rom ((bank &&& 0x7F) * 0x8000 + (off - 0x8000)) % 256
      else 0x55) := by
  have hread := (loROM_tables h (bank * 0x10000 + off)).1
  have hmir : lastHit (loROMMirrorDirs c.romLen) (bank * 0x10000 + off) = none := by
    rw [lastHit_loMirror c.romLen bank off ho2]
    refine if_neg ?_
    rintro ⟨_, h2⟩
    omega
  have hwr : lastHit (wramDirs (2 * PAGE_SIZE)) (bank * 0x10000 + off) = none := by
    rw [lastHit_wram bank off ho2]
    rw [if_neg (by omega), if_neg (by omega)]
  rw [hmir, ifNone_none, hwr, lastHit_loRom c.romLen bank off ho2] at hread
  have hcell : m.readable (bank * 0x10000 + off) =
      (if (bank &&& 0x7F) * 0x8000 < c.romLen then
        some (Cell.rom ((bank &&& 0x7F) * 0x8000 + (off - 0x8000)))
      else none) := by
    rw [hread]
    by_cases hch : (bank &&& 0x7F) * 0x8000 < c.romLen
    · rw [if_pos ⟨⟨hb, hch⟩, ho1⟩, if_pos hch]
      simp only [ifNone_some, resolveCell_some, MapInfo.cellAt, shl16,
        mul_or (by omega : (0x8000 : Nat) < 0x10000)]
      exact congrArg (fun n => some (Cell.rom n)) (by omega)
    · rw [if_neg (by tauto), if_neg hch]
      rfl
  refine ⟨by rw [ha]; exact hcell, ?_⟩
  rw [read_eq, ha, hcell]
  by_cases hch : (bank &&& 0x7F) * 0x8000 < c.romLen
  · rw [if_pos hch, if_pos hch]
    have hrom := (from_cartridge_fields h).1
    simp [MemoryMap.load, hrom]
  · rw [if_neg hch, if_neg hch]

/-- Witness for C2 at bank 0, offset 0x8000 of a 32 KiB LoROM image: the
chunk exists and the read returns ROM byte 0. -/
theorem spec_C2_witness :
    ∃ m, from_cartridge cartA (some ROMType.LoROM) = some m ∧
      m.read (Address24.new 0x008000) = some 0x37 := by
  have hs : (from_cartridge cartA (some ROMType.LoROM)).isSome = true := by decide
  have hm : from_cartridge cartA (some ROMType.LoROM) =
      some ((from_cartridge cartA (some ROMType.LoROM)).get hs) :=
    (Option.some_get hs).symm
  refine ⟨_, hm, ?_⟩
  have h2 := (spec_C2 cartA _ hm 0 0x8000 (by omega) (by omega) (by omega)
    (Address24.new 0x008000) (by decide)).2
  rw [h2]
  decide

/-- Claim C3 (code bug): the HiROM arm filters chunks by their start offset
only, but then slices a full chunk from the ROM; a chunk that starts inside
the image yet is not fully contained makes construction panic instead of
being omitted.  A 32 KiB image (romLen 0x8000) panics slicing
rom[0x0000..0x10000]; an image of whole 64 KiB chunks builds fine. -/
theorem spec_C3 :
    from_cartridge cartB32 (some ROMType.HiROM) = none ∧
    (from_cartridge cartB (some ROMType.HiROM)).isSome = true :=
  ⟨rfl, by decide⟩

/-- Claim C4: two independent guarantees about any engine state.  At any
address whose read-table slot is unbacked, `read` returns the sentinel
0x55; at any address whose write-table slot is unbacked — whether or not
its read-table slot is backed — `write` returns the engine unchanged
(every byte of ROM, WRAM and SRAM untouched); neither operation fails
(both return `some`). -/
theorem spec_C4 (m : MemoryMap) (a : Address24) (v : Nat) :
    (m.readable a.toIndex = none → m.read a = some 0x55) ∧
    (m.writable a.toIndex = none → m.write a v = some m) := by
  constructor
  · intro hr
    rw [read_eq, hr]
  · intro hw
    rw [write_eq, hw]

/-- Witness for C4 on the 32 KiB LoROM engine: address 0x008000 has a
backed read entry (ROM byte 0) but an unbacked write entry, so the write of
0x7F there is discarded with the whole engine unchanged; address 0x028000
has an unbacked read entry, so reading it gives 0x55. -/
theorem spec_C4_witness :
    ∃ m, from_cartridge cartA (some ROMType.LoROM) = some m ∧
      m.readable (Address24.new 0x008000).toIndex = some (Cell.rom 0) ∧
      m.writable (Address24.new 0x008000).toIndex = none ∧
      m.write (Address24.new 0x008000) 0x7F = some m ∧
      m.readable (Address24.new 0x028000).toIndex = none ∧
      m.read (Address24.new 0x028000) = some 0x55 := by
  have hs : (from_cartridge cartA (some ROMType.LoROM)).isSome = true := by decide
  have hm : from_cartridge cartA (some ROMType.LoROM) =
      some ((from_cartridge cartA (some ROMType.LoROM)).get hs) :=
    (Option.some_get hs).symm
  have hrb : ((from_cartridge cartA (some ROMType.LoROM)).map
      (fun mm => mm.readable (Address24.new 0x008000).toIndex)) =
        some (some (Cell.rom 0)) := by decide
  have hwn : ((from_cartridge cartA (some ROMType.LoROM)).map
      (fun mm => mm.writable (Address24.new 0x008000).toIndex)) = some none := by decide
  have hrn : ((from_cartridge cartA (some ROMType.LoROM)).map
      (fun mm => mm.readable (Address24.new 0x028000).toIndex)) = some none := by decide
  rw [hm] at hrb hwn hrn
  simp only [Option.map_some', Option.some.injEq] at hrb hwn hrn
  refine ⟨_, hm, hrb, hwn, ?_, hrn, ?_⟩
  · exact (spec_C4 _ (Address24.new 0x008000) 0x7F).2 hwn
  · exact (spec_C4 _ (Address24.new 0x028000) 0x7F).1 hrn

/-- Claim C5: on any engine `from_cartridge` actually returns (either mode,
any ROM size), every `Address24` converts to a flat index below the table
length `MAP_SIZE`, `read` returns a byte (a value below 256), and `write`
does not fail. -/
theorem spec_C5 (c : Cartridge) (hint : Option ROMType) (m : MemoryMap)
    (h : from_cartridge c hint = some m) (a : Address24) (v : Nat) :
    a.toIndex < MAP_SIZE ∧
    (∃ b, m.read a = some b ∧ b < 256) ∧
    (∃ m2, m.write a v = some m2) := by
  obtain ⟨hrom, _, hwram, _, hsram⟩ := from_cartridge_fields h
  refine ⟨addr_lt_MAP a, ⟨_, read_eq m a, ?_⟩, _, write_eq m a v⟩
  cases hcell : m.readable a.toIndex with
  | none =>
    show (0x55 : Nat) < 256
    omega
  | some cl =>
    show m.load cl < 256
    cases cl with
    | rom i =>
      have hv : m.load (Cell.rom i) = c.rom i % 256 := by simp [MemoryMap.load, hrom]
      omega
    | wram i =>
      have hv : m.load (Cell.wram i) = 0 := by simp [MemoryMap.load, hwram]
      omega
    | sram i =>
      have hv : m.load (Cell.sram i) = 0 := by simp [MemoryMap.load, hsram]
      omega

/-- Witness for C5 on a 32 KiB LoROM engine at address 0x123456. -/
theorem spec_C5_witness :
    ∃ m, from_cartridge cartA (some ROMType.LoROM) = some m ∧
      (∃ b, m.read (Address24.new 0x123456) = some b ∧ b < 256) ∧
      (∃ m2, m.write (Address24.new 0x123456) 0xFF = some m2) := by
  have hs : (from_cartridge cartA (some ROMType.LoROM)).isSome = true := by decide
  have hm : from_cartridge cartA (some ROMType.LoROM) =
      some ((from_cartridge cartA (some ROMType.LoROM)).get hs) :=
    (Option.some_get hs).symm
  refine ⟨_, hm, ?_, ?_⟩
  · exact (spec_C5 cartA _ _ hm (Address24.new 0x123456) 0xFF).2.1
  · exact (spec_C5 cartA _ _ hm (Address24.new 0x123456) 0xFF).2.2

/-- Claim C6: on any constructed engine ROM is never installed in the write
table, so a write through any address leaves the ROM region and the read
table untouched, and every ROM-backed address keeps returning the original
ROM byte after the write. -/
theorem spec_C6 (c : Cartridge) (hint : Option ROMType) (m : MemoryMap)
    (h : from_cartridge c hint = some m) :
    (∀ x i, m.writable x ≠ some (Cell.rom i)) ∧
    ∀ (a : Address24) (v : Nat) (m2 : MemoryMap), m.write a v = some m2 →
      m2.rom = m.rom ∧ m2.readable = m.readable ∧
      ∀ (b : Address24) (j : Nat), m.readable b.toIndex = some (Cell.rom j) →
        m2.read b = some (m.rom j) ∧ m.read b = some (m.rom j) := by
  have hno := writable_no_rom h
  refine ⟨hno, ?_⟩
  intro a v m2 hw2
  obtain ⟨hrom, hread⟩ := write_preserves hno a v hw2
  refine ⟨hrom, hread, ?_⟩
  intro b j hb
  constructor
  · rw [read_eq, hread, hb]
    simp [MemoryMap.load, hrom]
  · rw [read_eq, hb]
    simp [MemoryMap.load]

/-- Witness for C6: on the 32 KiB LoROM engine, writing 0x12 through
0x7E0000 leaves the ROM byte visible at 0x008000 unchanged. -/
theorem spec_C6_witness :
    ∃ m, from_cartridge cartA (some ROMType.LoROM) = some m ∧
      ∃ m2, m.write (Address24.new 0x7E0000) 0x12 = some m2 ∧
        m.readable (Address24.new 0x008000).toIndex = some (Cell.rom 0) ∧
        m2.read (Address24.new 0x008000) = some (m.rom 0) := by
  have hs : (from_cartridge cartA (some ROMType.LoROM)).isSome = true := by decide
  have hm : from_cartridge cartA (some ROMType.LoROM) =
      some ((from_cartridge cartA (some ROMType.LoROM)).get hs) :=
    (Option.some_get hs).symm
  refine ⟨_, hm, ?_⟩
  obtain ⟨m2, hw⟩ : ∃ m2,
      ((from_cartridge cartA (some ROMType.LoROM)).get hs).write
        (Address24.new 0x7E0000) 0x12 = some m2 :=
    ⟨_, write_eq _ _ _⟩
  have hb' : ((from_cartridge cartA (some ROMType.LoROM)).map
      (fun mm => mm.readable (Address24.new 0x008000).toIndex)) =
        some (some (Cell.rom 0)) := by decide
  rw [hm] at hb'
  simp only [Option.map_some', Option.some.injEq] at hb'
  have hb := hb'
  obtain ⟨_, _, hrd⟩ := (spec_C6 cartA _ _ hm).2 (Address24.new 0x7E0000) 0x12 m2 hw
  exact ⟨m2, hw, hb, (hrd (Address24.new 0x008000) 0 hb).1⟩

/-- Claim C7: in either mode the low 8 KiB of every bank in 0x00-0x3F and
0x80-0xBF, and the window at 0x7E0000-0x7E1FFF, all alias WRAM page 0: the
decode tables point them at the same WRAM cells, and a write through one
mirror is observed by a read through any other mirror of the same cell. -/
theorem spec_C7 (c : Cartridge) (hint : Option ROMType) (m : MemoryMap)
    (h : from_cartridge c hint = some m)
    (b1 b2 off : Nat) (hb1 : MirrorBank b1) (hb2 : MirrorBank b2)
    (hoff : off < 0x2000)
    (a1 a2 : Address24) (ha1 : a1.toIndex = b1 * 0x10000 + off)
    (ha2 : a2.toIndex = b2 * 0x10000 + off) (v : Nat) :
    m.readable a1.toIndex = some (Cell.wram off) ∧
    m.writable a1.toIndex = some (Cell.wram off) ∧
    m.readable a2.toIndex = some (Cell.wram off) ∧
    ∃ m2, m.write a1 v = some m2 ∧ m2.read a2 = some (v % 256) := by
  obtain ⟨hr1, hw1⟩ := mirror_wram_tables h b1 off hb1 hoff
  obtain ⟨hr2, _⟩ := mirror_wram_tables h b2 off hb2 hoff
  rw [← ha1] at hr1 hw1
  rw [← ha2] at hr2
  refine ⟨hr1, hw1, hr2, _, write_eq m a1 v, ?_⟩
  rw [hw1, read_eq, (store_tables m (Cell.wram off) v).1, hr2]
  simp [MemoryMap.store, MemoryMap.load]

/-- Witness for C7: write 0xAB through 0x7E0000 and read it back at
0x000000 on the 32 KiB LoROM engine. -/
theorem spec_C7_witness :
    ∃ m, from_cartridge cartA (some ROMType.LoROM) = some m ∧
      ∃ m2, m.write (Address24.new 0x7E0000) 0xAB = some m2 ∧
        m2.read (Address24.new 0x000000) = some 0xAB := by
  have hs : (from_cartridge cartA (some ROMType.LoROM)).isSome = true := by decide
  have hm : from_cartridge cartA (some ROMType.LoROM) =
      some ((from_cartridge cartA (some ROMType.LoROM)).get hs) :=
    (Option.some_get hs).symm
  refine ⟨_, hm, ?_⟩
  obtain ⟨_, _, _, m2, hw, hr⟩ := spec_C7 cartA _ _ hm 0x7E 0x00 0x0000
    (Or.inr (Or.inr rfl)) (Or.inl (by omega)) (by omega)
    (Address24.new 0x7E0000) (Address24.new 0x000000) (by decide) (by decide) 0xAB
  exact ⟨m2, hw, by simpa using hr⟩

/-- Claim C8, counterexample: on a 32 KiB LoROM image every bank index is
congruent modulo the single 32 KiB chunk (so the claim's guard, read as the
spec's modulo chunk indexing, holds), yet `read(0x008000)` is ROM byte 0
(0x37) while `read(0x008000 ^ 0x400000) = read(0x408000)` is the open-bus
byte 0x55: the `^ 0x400000` relation does not hold on the code. -/
theorem spec_C8_counterexample :
    ((from_cartridge cartA (some ROMType.LoROM)).bind
      (fun m => m.read (Address24.new 0x008000))) = some 0x37 ∧
    ((from_cartridge cartA (some ROMType.LoROM)).bind
      (fun m => m.read (Address24.new (0x008000 ^^^ 0x400000)))) = some 0x55 ∧
    (0x008000 ^^^ 0x400000 : Nat) = 0x408000 ∧
    (0x40 &&& 0x7F) % (cartA.romLen / 0x8000) =
      (0x00 &&& 0x7F) % (cartA.romLen / 0x8000) ∧
    some (0x37 : Nat) ≠ some 0x55 :=
  ⟨by decide, by decide, by decide, by decide, by decide⟩

/-- Claim C8, amended: the ROM mirroring the LoROM engine actually provides
is within one bank: for every bank in 0x40-0x7D and 0xC0-0xFF whose chunk
exists, a lower-half address and the address 0x8000 above it (that is,
`addr ^ 0x8000`) alias the same ROM byte, so their reads agree.  The
`addr ^ 0x400000` relation of the original claim does not hold (see the
counterexample). -/
theorem spec_C8 (c : Cartridge) (m : MemoryMap)
    (h : from_cartridge c (some ROMType.LoROM) = some m)
    (bank off : Nat)
    (hb : (0x40 ≤ bank ∧ bank < 0x7E) ∨ (0xC0 ≤ bank ∧ bank < 0x100))
    (hoff : off < 0x8000) (hch : (bank &&& 0x7F) * 0x8000 < c.romLen)
    (a1 a2 : Address24) (ha1 : a1.toIndex = bank * 0x10000 + off)
    (ha2 : a2.toIndex = bank * 0x10000 + off + 0x8000) :
    m.readable a1.toIndex = some (Cell.rom ((bank &&& 0x7F) * 0x8000 + off)) ∧
    m.readable a2.toIndex = some (Cell.rom ((bank &&& 0x7F) * 0x8000 + off)) ∧
    m.read a1 = m.read a2 := by
  have hoff16 : off < 0x10000 := by omega
  have h1 : m.readable (bank * 0x10000 + off) =
      some (Cell.rom ((bank &&& 0x7F) * 0x8000 + off)) := by
    have hread := (loROM_tables h (bank * 0x10000 + off)).1
    have hmir : lastHit (loROMMirrorDirs c.romLen) (bank * 0x10000 + off) =
        some (MapInfo.ROM ((bank &&& 0x7F) * 0x8000) (bank <<< 16) 0x8000) := by
      rw [lastHit_loMirror c.romLen bank off hoff16]
      exact if_pos ⟨⟨hb, hch⟩, hoff⟩
    rw [hmir] at hread
    rw [hread]
    simp only [ifNone_some, resolveCell_some, MapInfo.cellAt, shl16]
    exact congrArg (fun n => some (Cell.rom n)) (by omega)
  have h2 : m.readable (bank * 0x10000 + (off + 0x8000)) =
      some (Cell.rom ((bank &&& 0x7F) * 0x8000 + off)) := by
    have hread := (loROM_tables h (bank * 0x10000 + (off + 0x8000))).1
    have hoff2 : off + 0x8000 < 0x10000 := by omega
    have hmir : lastHit (loROMMirrorDirs c.romLen)
        (bank * 0x10000 + (off + 0x8000)) = none := by
      rw [lastHit_loMirror c.romLen bank (off + 0x8000) hoff2]
      refine if_neg ?_
      rintro ⟨_, hx⟩
      omega
    have hwr : lastHit (wramDirs (2 * PAGE_SIZE))
        (bank * 0x10000 + (off + 0x8000)) = none := by
      rw [lastHit_wram bank (off + 0x8000) hoff2]
      rw [if_neg (by omega), if_neg (by omega)]
    have hrom : lastHit (loROMRomDirs c.romLen) (bank * 0x10000 + (off + 0x8000)) =
        some (MapInfo.ROM ((bank &&& 0x7F) * 0x8000) ((bank <<< 16) ||| 0x8000) 0x8000) := by
      rw [lastHit_loRom c.romLen bank (off + 0x8000) hoff2]
      exact if_pos ⟨⟨by omega, hch⟩, by omega⟩
    rw [hmir, ifNone_none, hrom] at hread
    rw [hread]
    simp only [ifNone_some, resolveCell_some, MapInfo.cellAt, shl16,
      mul_or (by omega : (0x8000 : Nat) < 0x10000)]
    exact congrArg (fun n => some (Cell.rom n)) (by omega)
  have ha2' : a2.toIndex = bank * 0x10000 + (off + 0x8000) := by omega
  refine ⟨by rw [ha1]; exact h1, by rw [ha2']; exact h2, ?_⟩
  rw [read_eq, read_eq, ha1, ha2', h1, h2]

/-- Witness for the amended C8 on a 0x208000-byte LoROM image: bank 0x40's
chunk exists, and addresses 0x400000 and 0x408000 read the same chunk
byte. -/
theorem spec_C8_witness :
    ∃ m, from_cartridge cartC (some ROMType.LoROM) = some m ∧
      m.readable (Address24.new 0x400000).toIndex = some (Cell.rom 0x200000) ∧
      m.read (Address24.new 0x400000) = m.read (Address24.new 0x408000) := by
  have hs : (from_cartridge cartC (some ROMType.LoROM)).isSome = true := by decide
  have hm : from_cartridge cartC (some ROMType.LoROM) =
      some ((from_cartridge cartC (some ROMType.LoROM)).get hs) :=
    (Option.some_get hs).symm
  refine ⟨_, hm, ?_, ?_⟩
  · have := (spec_C8 cartC _ hm 0x40 0 (Or.inl (by omega)) (by omega) (by decide)
      (Address24.new 0x400000) (Address24.new 0x408000) (by decide) (by decide)).1
    simpa using this
  · exact (spec_C8 cartC _ hm 0x40 0 (Or.inl (by omega)) (by omega) (by decide)
      (Address24.new 0x400000) (Address24.new 0x408000) (by decide) (by decide)).2.2

/-- Claim C9: a LoROM image longer than 4 MiB fails the `assert`, so
construction is a fatal failure and no engine is returned. -/
theorem spec_C9 (c : Cartridge) (h : 0x400000 < c.romLen) :
    from_cartridge c (some ROMType.LoROM) = none := by
  rw [from_cartridge_loROM, if_neg (by omega)]

/-- Witness for C9 at a 4 MiB + 1 image. -/
theorem spec_C9_witness :
    from_cartridge cartHuge (some ROMType.LoROM) = none ∧
    0x400000 < cartHuge.romLen :=
  ⟨spec_C9 cartHuge (by decide), by decide⟩

/-- Claim C10: adding an `Address16` to an `Address24` replaces the low 16
bits by the 16-bit wrapping sum and keeps the bank byte: the carry out of
the 16-bit offset is discarded, and `high` is unchanged. -/
theorem spec_C10 (a : Address24) (b : Address16) :
    (a.add16 b).val = a.val / 0x10000 * 0x10000 + (a.val % 0x10000 + b.val) % 0x10000 ∧
    (a.add16 b).high = a.high := by
  have hval : (a.add16 b).val =
      a.val / 0x10000 * 0x10000 + (a.val % 0x10000 + b.val) % 0x10000 := by
    show (a.val &&& 0xFF0000) ||| ((a.val % 0x10000 + b.val) % 0x10000) = _
    rw [and_FF0000 a.isLt]
    exact mul_or (Nat.mod_lt _ (by omega))
  refine ⟨hval, ?_⟩
  show ((a.add16 b).val >>> 16) % 0x100 = (a.val >>> 16) % 0x100
  rw [hval, Nat.shiftRight_eq_div_pow, Nat.shiftRight_eq_div_pow]
  have e : (2 : Nat) ^ 16 = 0x10000 := by norm_num
  rw [e]
  have hr : (a.val % 0x10000 + b.val) % 0x10000 < 0x10000 := Nat.mod_lt _ (by omega)
  omega
